import Mathlib

/-!
Shallow embedding of the RAG ingestion pipeline from
`src/basic_rag/simple_rag_with_langchain.ipynb`.

The notebook's own code is `replace_tab_with_space` (per-document tab
cleaning) and `convert_pdf_to_embeddings` (the orchestration: load the PDF,
construct a `RecursiveCharacterTextSplitter`, split, clean, embed, build a
Chroma store).  The splitter and the vector store are external library
components whose implementations are not in the repository; the spec
describes their contracts (Chunker §4.2, VectorIndex §4.4), so those two
components are modelled from the spec, as noted on their definitions.
Text is modelled as `List Char`, embedding vectors as `List Int`
(coordinates are opaque to every property proved here, which concern
ordering, counting and reconstruction, not floating-point arithmetic).
-/

/-- Error taxonomy from the spec (§7); only the members the claims need. -/
inductive RagError where
  | invalidConfiguration : RagError
  | dimensionMismatch : RagError
deriving DecidableEq, Repr

/-- Python `str.replace(old, new)` specialised to a one-character pattern
and a one-character replacement, which is how the source calls it
(`page_content.replace('\t', ' ')`): a left-to-right scan replacing each
occurrence of `old` by `new`. -/
def replaceChar (old new : Char) : List Char → List Char
  | [] => []
  | c :: rest => (if c = old then new else c) :: replaceChar old new rest

/-- The per-string operation performed by `replace_tab_with_space` in the
source, `page_content.replace('\t', ' ')`; the spec's `TextNormalizer`
calls it `normalize` (§4.1); named `normalizeText` here because Mathlib
already declares `normalize`. -/
def normalizeText (s : List Char) : List Char :=
  replaceChar '\t' ' ' s

theorem replaceChar_length (old new : Char) :
    ∀ s : List Char, (replaceChar old new s).length = s.length := by
  intro s
  induction s with
  | nil => rfl
  | cons c rest ih => simp [replaceChar, ih]

theorem replaceChar_getElem (old new : Char) :
    ∀ (s : List Char) (i : Nat),
      (replaceChar old new s)[i]? = (s[i]?).map (fun c => if c = old then new else c) := by
  intro s
  induction s with
  | nil => intro i; rfl
  | cons c rest ih =>
      intro i
      cases i with
      | zero => simp [replaceChar]
      | succ j => simpa [replaceChar] using ih j

theorem not_mem_replaceChar (old new : Char) (hne : new ≠ old) :
    ∀ s : List Char, old ∉ replaceChar old new s := by
  intro s
  induction s with
  | nil => simp [replaceChar]
  | cons c rest ih =>
      simp only [replaceChar, List.mem_cons, not_or]
      refine ⟨?_, ih⟩
      by_cases hc : c = old
      · simpa [hc] using fun h => hne h.symm
      · simpa [hc] using fun h => hc h.symm

/-- Modelled from the spec: the Chunker's length-bounded splitting loop.
The `RecursiveCharacterTextSplitter` implementation is not in `src/` (the
notebook only constructs and calls it), so this follows the contract in
spec §4.2 with the deterministic boundary rule §9 licenses: a hard
character cut.  Each produced chunk is the next `size` characters of the
remaining text, and the scan advances by `step = size - overlap`
characters, so every chunk after the first begins with the trailing
`overlap` characters of the previous one.  `fuel` bounds the recursion;
callers pass the text length, which suffices whenever `0 < step`. -/
def chunkGo (size step : Nat) : Nat → List Char → List (List Char)
  | 0, _ => []
  | _ + 1, [] => []
  | fuel + 1, c :: cs =>
      if (c :: cs).length ≤ size then [c :: cs]
      else (c :: cs).take size :: chunkGo size step fuel ((c :: cs).drop step)

/-- Modelled from the spec: `Chunker.split` per §4.2 — validates
`chunk_size > 0` and `0 ≤ chunk_overlap < chunk_size`, failing with
`InvalidConfiguration` otherwise, then runs the splitting loop. -/
def Chunker.split (text : List Char) (size overlap : Nat) :
    Except RagError (List (List Char)) :=
  if size = 0 ∨ size ≤ overlap then Except.error RagError.invalidConfiguration
  else Except.ok (chunkGo size (size - overlap) text.length text)

/-- Concatenating chunks minus their overlaps: keep the first chunk whole
and drop the leading `overlap` characters of every later chunk. -/
def reassemble (overlap : Nat) : List (List Char) → List Char
  | [] => []
  | c :: cs => c ++ (cs.map (List.drop overlap)).flatten

theorem reassemble_nil (overlap : Nat) : reassemble overlap [] = [] := rfl

theorem reassemble_cons (overlap : Nat) (c : List Char) (cs : List (List Char)) :
    reassemble overlap (c :: cs) = c ++ (cs.map (List.drop overlap)).flatten := rfl

theorem chunkGo_length_le (size step : Nat) :
    ∀ (fuel : Nat) (s : List Char), ∀ c ∈ chunkGo size step fuel s, c.length ≤ size := by
  intro fuel
  induction fuel with
  | zero => intro s c hc; simp [chunkGo] at hc
  | succ n ih =>
      intro s c hc
      cases s with
      | nil => simp [chunkGo] at hc
      | cons a as =>
          rw [chunkGo] at hc
          by_cases hle : (a :: as).length ≤ size
          · rw [if_pos hle] at hc
            simp at hc
            subst hc
            exact hle
          · rw [if_neg hle] at hc
            rcases List.mem_cons.mp hc with h | h
            · subst h
              simp [List.length_take_le]
            · exact ih _ c h

theorem chunkGo_cons_eq (size step fuel : Nat) (a : Char) (as : List Char) :
    ∃ t, chunkGo size step (fuel + 1) (a :: as) = (a :: as).take size :: t := by
  rw [chunkGo]
  by_cases hle : (a :: as).length ≤ size
  · exact ⟨[], by rw [if_pos hle, List.take_of_length_le hle]⟩
  · exact ⟨_, by rw [if_neg hle]⟩

theorem chunkGo_reassemble (size step overlap : Nat)
    (hstep : step + overlap = size) (hov : overlap < size) :
    ∀ (fuel : Nat) (s : List Char), s.length ≤ fuel →
      reassemble overlap (chunkGo size step fuel s) = s := by
  have hsteppos : 0 < step := by omega
  intro fuel
  induction fuel with
  | zero =>
      intro s hs
      have : s = [] := List.eq_nil_of_length_eq_zero (by omega)
      subst this
      rfl
  | succ n ih =>
      intro s hs
      cases s with
      | nil => rfl
      | cons a as =>
          rw [chunkGo]
          by_cases hle : (a :: as).length ≤ size
          · rw [if_pos hle]
            simp [reassemble]
          · rw [if_neg hle]
            have hlen : (a :: as).length > size := by omega
            have hdlen : ((a :: as).drop step).length ≤ n := by
              rw [List.length_drop]; omega
            have hdne : ((a :: as).drop step) ≠ [] := by
              intro hnil
              have h1 := congrArg List.length hnil
              rw [List.length_drop] at h1
              simp only [List.length_nil, List.length_cons] at h1
              simp only [List.length_cons] at hle
              omega
            obtain ⟨b, bs, hbs⟩ := List.exists_cons_of_ne_nil hdne
            cases n with
            | zero =>
                exact absurd (List.eq_nil_of_length_eq_zero (Nat.le_zero.mp hdlen)) hdne
            | succ m =>
                obtain ⟨t, ht⟩ := chunkGo_cons_eq size step m b bs
                rw [hbs, ht]
                have ihr := ih ((a :: as).drop step) hdlen
                rw [hbs, ht] at ihr
                -- ihr : reassemble overlap ((b :: bs).take size :: t) = b :: bs
                have hheadlen : overlap ≤ ((b :: bs).take size).length := by
                  rw [List.length_take]
                  have hbslen : (b :: bs).length = (a :: as).length - step := by
                    rw [← hbs, List.length_drop]
                  omega
                rw [reassemble_cons] at ihr ⊢
                rw [List.map_cons, List.flatten_cons]
                have hjoin :
                    List.drop overlap ((b :: bs).take size) ++ (t.map (List.drop overlap)).flatten
                      = List.drop overlap ((b :: bs).take size ++ (t.map (List.drop overlap)).flatten) := by
                  rw [List.drop_append_eq_append_drop, Nat.sub_eq_zero_of_le hheadlen, List.drop_zero]
                rw [hjoin, ihr, ← hbs, List.drop_drop, hstep, List.take_append_drop]

/-- An entry of the vector index: a chunk's text, its insertion position
(`sequence_index` in the spec's data model §3), and its embedding vector. -/
structure IndexEntry where
  chunk : List Char
  seqIndex : Nat
  vec : List Int
deriving DecidableEq, Repr

/-- Squared Euclidean distance between two vectors of equal length
(order-equivalent to the spec's L2 metric, §4.4; squaring avoids the
irrational square root while preserving every comparison). -/
def dist2 (v w : List Int) : Int :=
  ((v.zip w).map (fun p => (p.1 - p.2) * (p.1 - p.2))).sum

/-- Modelled from the spec: the ranking order used by `VectorIndex.query`
(§4.4) — increasing distance to the query vector, ties broken by ascending
`sequence_index` so that the first-inserted entry wins. -/
def entryLe (v : List Int) (a b : IndexEntry) : Prop :=
  dist2 v a.vec < dist2 v b.vec ∨
    (dist2 v a.vec = dist2 v b.vec ∧ a.seqIndex ≤ b.seqIndex)

instance entryLeDecidable (v : List Int) : DecidableRel (entryLe v) := by
  intro a b
  unfold entryLe
  exact inferInstance

instance entryLeTotal (v : List Int) : IsTotal IndexEntry (entryLe v) := by
  constructor
  intro a b
  unfold entryLe
  omega

instance entryLeTrans (v : List Int) : IsTrans IndexEntry (entryLe v) := by
  constructor
  intro a b c hab hbc
  unfold entryLe at hab hbc ⊢
  omega

/-- Modelled from the spec: `VectorIndex.query` (§4.4).  The index is the
list of entries in insertion order; `query` fails with
`InvalidConfiguration` on `k ≤ 0`, otherwise sorts the entries by the
ranking order and returns the first `k` (all of them when fewer exist). -/
def VectorIndex.query (entries : List IndexEntry) (v : List Int) (k : Int) :
    Except RagError (List IndexEntry) :=
  if k ≤ 0 then Except.error RagError.invalidConfiguration
  else Except.ok ((entries.insertionSort (entryLe v)).take k.toNat)

/-- A LangChain document as the notebook uses it: page text plus the page
metadata the loader attaches. -/
structure Document where
  page_content : List Char
  page : Nat
deriving DecidableEq, Repr

/-- `replace_tab_with_space` from the source: for each document in the
list, replaces every tab in its `page_content` with a space, and returns
the list.  In Python the loop mutates each document in place and returns
the very list it received, so the returned list and the argument are the
same object; the embedding captures that by making every later use of the
argument refer to this result. -/
def replace_tab_with_space (docs : List Document) : List Document :=
  docs.map (fun d => { d with page_content := normalizeText d.page_content })

/-- `text_splitter.split_documents(documents)` as called in the source:
chunk each document's text (splitter modelled from spec §4.2, see
`chunkGo`) and emit one document per chunk, keeping the page metadata. -/
def split_documents (size overlap : Nat) (docs : List Document) : List Document :=
  docs.flatMap (fun d =>
    (chunkGo size (size - overlap) d.page_content.length d.page_content).map
      (fun c => { d with page_content := c }))

/-- The pipeline steps `convert_pdf_to_embeddings` performs, in order, so
that ordering claims are about the recorded trace. -/
inductive Step where
  | loadDocuments : Step
  | splitDocuments : Step
  | cleanTexts : Step
  | embedTexts : Step
  | buildStore : Step
deriving DecidableEq, Repr

/-- `convert_pdf_to_embeddings` from the source, as a function from the
loaded pages (the external `PyPDFLoader` output) and the chunking
configuration to the trace of steps performed and the outcome.  The
source's statement order is kept: `loader.load()` runs first; the
`RecursiveCharacterTextSplitter` constructor is built next and is where an
invalid `chunk_size`/`chunk_overlap` pair is rejected (validation modelled
from spec §4.2/§7, the splitter being external); on success the documents
are split, tab-cleaned, embedded and stored.  The source passes `texts` to
`Chroma.from_documents`, but `replace_tab_with_space` has already mutated
those same document objects in place, so the store receives the cleaned
documents; the embedding therefore returns `cleaned_texts` as the stored
list. -/
def convert_pdf_to_embeddings (pages : List Document) (size overlap : Nat) :
    List Step × Except RagError (List Document) :=
  if size = 0 ∨ size ≤ overlap then
    ([Step.loadDocuments], Except.error RagError.invalidConfiguration)
  else
    let texts := split_documents size overlap pages
    let cleaned_texts := replace_tab_with_space texts
    ([Step.loadDocuments, Step.splitDocuments, Step.cleanTexts,
        Step.embedTexts, Step.buildStore],
      Except.ok cleaned_texts)

deriving instance DecidableEq for Except

theorem convert_valid_eq (pages : List Document) (size overlap : Nat)
    (h : overlap < size) :
    convert_pdf_to_embeddings pages size overlap =
      ([Step.loadDocuments, Step.splitDocuments, Step.cleanTexts,
          Step.embedTexts, Step.buildStore],
        Except.ok (replace_tab_with_space (split_documents size overlap pages))) := by
  unfold convert_pdf_to_embeddings
  rw [if_neg (by omega : ¬(size = 0 ∨ size ≤ overlap))]

theorem tab_not_mem_clean (docs : List Document) :
    ∀ d ∈ replace_tab_with_space docs, '\t' ∉ d.page_content := by
  intro d hd
  unfold replace_tab_with_space at hd
  obtain ⟨d0, _, rfl⟩ := List.mem_map.mp hd
  exact not_mem_replaceChar '\t' ' ' (by decide) d0.page_content

/-- C1: for every input text and every configuration with
`0 < chunk_overlap < chunk_size`, `Chunker.split` succeeds, every produced
chunk has length at most `chunk_size`, and concatenating the chunks minus
their overlaps reconstructs the whole input (full coverage, no gaps). -/
theorem chunker_split_bounds_and_coverage (text : List Char) (size overlap : Nat)
    (h0 : 0 < overlap) (h1 : overlap < size) :
    ∃ cs, Chunker.split text size overlap = Except.ok cs ∧
      (∀ c ∈ cs, c.length ≤ size) ∧ reassemble overlap cs = text := by
  refine ⟨chunkGo size (size - overlap) text.length text, ?_, ?_, ?_⟩
  · unfold Chunker.split
    rw [if_neg (by omega : ¬(size = 0 ∨ size ≤ overlap))]
  · exact chunkGo_length_le size (size - overlap) text.length text
  · exact chunkGo_reassemble size (size - overlap) overlap (by omega) h1 text.length text le_rfl

theorem chunker_split_bounds_and_coverage_witness :
    ∃ cs, Chunker.split ['a','b','c','d','e'] 3 1 = Except.ok cs ∧
      (∀ c ∈ cs, c.length ≤ 3) ∧ reassemble 1 cs = ['a','b','c','d','e'] :=
  chunker_split_bounds_and_coverage ['a','b','c','d','e'] 3 1 (by decide) (by decide)

/-- C4: for every configuration with `chunk_overlap ≥ chunk_size`,
`Chunker.split` fails with `InvalidConfiguration`. -/
theorem chunker_split_invalid_config (text : List Char) (size overlap : Nat)
    (h : size ≤ overlap) :
    Chunker.split text size overlap = Except.error RagError.invalidConfiguration := by
  unfold Chunker.split
  rw [if_pos (Or.inr h)]

theorem chunker_split_invalid_config_witness :
    Chunker.split ['a','b'] 2 5 = Except.error RagError.invalidConfiguration :=
  chunker_split_invalid_config ['a','b'] 2 5 (by decide)

/-- C8: for every valid configuration, `Chunker.split` on the empty string
yields no chunks, and on any non-empty text strictly shorter than
`chunk_size` yields exactly one chunk equal to the whole text. -/
theorem chunker_split_empty_and_short (text : List Char) (size overlap : Nat)
    (hov : overlap < size) (hne : text ≠ []) (hlen : text.length < size) :
    Chunker.split [] size overlap = Except.ok [] ∧
    Chunker.split text size overlap = Except.ok [text] := by
  have hguard : ¬(size = 0 ∨ size ≤ overlap) := by omega
  constructor
  · unfold Chunker.split
    rw [if_neg hguard]
    rfl
  · unfold Chunker.split
    rw [if_neg hguard]
    obtain ⟨a, as, rfl⟩ := List.exists_cons_of_ne_nil hne
    rw [List.length_cons, chunkGo, if_pos (by omega : (a :: as).length ≤ size)]

theorem chunker_split_empty_and_short_witness :
    Chunker.split [] 3 1 = Except.ok [] ∧
    Chunker.split ['h','i'] 3 1 = Except.ok [['h','i']] :=
  chunker_split_empty_and_short ['h','i'] 3 1 (by decide) (by decide) (by decide)

/-- C9: `Chunker.split` is a deterministic function of its arguments — two
calls on identical input with identical parameters return identical
output. -/
theorem chunker_split_deterministic (t₁ t₂ : List Char) (s₁ s₂ o₁ o₂ : Nat)
    (ht : t₁ = t₂) (hs : s₁ = s₂) (ho : o₁ = o₂) :
    Chunker.split t₁ s₁ o₁ = Chunker.split t₂ s₂ o₂ := by
  subst ht
  subst hs
  subst ho
  rfl

theorem chunker_split_deterministic_witness :
    Chunker.split ['a','b','c'] 2 1 = Chunker.split ['a','b','c'] 2 1 :=
  chunker_split_deterministic ['a','b','c'] ['a','b','c'] 2 2 1 1 rfl rfl rfl

/-- C2: every successful `VectorIndex.query` result is ordered by
non-decreasing distance to the query vector, and any two returned entries
at the same distance appear in ascending `sequence_index` order (the
first-inserted entry first), so query results are deterministic. -/
theorem vectorIndex_query_sorted (entries : List IndexEntry) (v : List Int) (k : Int)
    (l : List IndexEntry)
    (hdim : ∀ e ∈ entries, e.vec.length = v.length)
    (h : VectorIndex.query entries v k = Except.ok l) :
    List.Pairwise (fun a b => dist2 v a.vec ≤ dist2 v b.vec) l ∧
    List.Pairwise (fun a b => dist2 v a.vec = dist2 v b.vec → a.seqIndex ≤ b.seqIndex) l := by
  unfold VectorIndex.query at h
  by_cases hk : k ≤ 0
  · rw [if_pos hk] at h
    simp at h
  · rw [if_neg hk] at h
    have hl : l = (entries.insertionSort (entryLe v)).take k.toNat := by
      injection h with h'
      exact h'.symm
    subst hl
    have hsorted : List.Sorted (entryLe v) (entries.insertionSort (entryLe v)) :=
      List.sorted_insertionSort (entryLe v) entries
    have htake : List.Pairwise (entryLe v)
        ((entries.insertionSort (entryLe v)).take k.toNat) :=
      List.Pairwise.sublist (List.take_sublist _ _) hsorted
    constructor
    · exact htake.imp (fun hab => by unfold entryLe at hab; omega)
    · exact htake.imp (fun hab => by unfold entryLe at hab; omega)

theorem vectorIndex_query_sorted_witness :
    List.Pairwise (fun a b : IndexEntry => dist2 [1] a.vec ≤ dist2 [1] b.vec)
      ([⟨['x'], 0, [0]⟩, ⟨['y'], 1, [2]⟩] : List IndexEntry) ∧
    List.Pairwise
      (fun a b : IndexEntry => dist2 [1] a.vec = dist2 [1] b.vec → a.seqIndex ≤ b.seqIndex)
      ([⟨['x'], 0, [0]⟩, ⟨['y'], 1, [2]⟩] : List IndexEntry) :=
  vectorIndex_query_sorted [⟨['x'], 0, [0]⟩, ⟨['y'], 1, [2]⟩] [1] 5
    [⟨['x'], 0, [0]⟩, ⟨['y'], 1, [2]⟩] (by decide) (by decide)

/-- C3: for every `k > 0`, `VectorIndex.query` succeeds and returns
exactly `min(k, entry_count)` results; when fewer than `k` entries exist
it returns all of them. -/
theorem vectorIndex_query_count (entries : List IndexEntry) (v : List Int) (k : Int)
    (hk : 0 < k)
    (hdim : ∀ e ∈ entries, e.vec.length = v.length) :
    ∃ l, VectorIndex.query entries v k = Except.ok l ∧
      l.length = min k.toNat entries.length := by
  unfold VectorIndex.query
  rw [if_neg (by omega : ¬k ≤ 0)]
  refine ⟨_, rfl, ?_⟩
  rw [List.length_take, (List.perm_insertionSort (entryLe v) entries).length_eq]

theorem vectorIndex_query_count_witness :
    ∃ l, VectorIndex.query [⟨['x'], 0, [0]⟩, ⟨['y'], 1, [2]⟩] [1] 5 = Except.ok l ∧
      l.length = min (Int.toNat 5)
        ([⟨['x'], 0, [0]⟩, ⟨['y'], 1, [2]⟩] : List IndexEntry).length :=
  vectorIndex_query_count [⟨['x'], 0, [0]⟩, ⟨['y'], 1, [2]⟩] [1] 5 (by decide) (by decide)

/-- C5 counterexample: on an invalid `chunk_size=2, chunk_overlap=5`
configuration, `convert_pdf_to_embeddings` does raise the configuration
error, but only after the document-loading step has already run — the
trace records `loadDocuments` — because the source calls `loader.load()`
before constructing the splitter.  This refutes the claim that the error
is raised before any document loading is performed. -/
theorem convert_invalid_config_still_loads :
    (convert_pdf_to_embeddings [⟨['a'], 0⟩] 2 5).2
        = Except.error RagError.invalidConfiguration ∧
    Step.loadDocuments ∈ (convert_pdf_to_embeddings [⟨['a'], 0⟩] 2 5).1 := by
  decide

/-- C5 (amended): on an invalid `chunk_size`/`chunk_overlap` pair,
`convert_pdf_to_embeddings` raises the configuration error after loading
the document but before any splitting, cleaning, embedding, or store
construction takes place. -/
theorem convert_invalid_config_rejected_after_load (pages : List Document)
    (size overlap : Nat) (h : size ≤ overlap) :
    convert_pdf_to_embeddings pages size overlap =
      ([Step.loadDocuments], Except.error RagError.invalidConfiguration) := by
  unfold convert_pdf_to_embeddings
  rw [if_pos (Or.inr h)]

theorem convert_invalid_config_rejected_after_load_witness :
    convert_pdf_to_embeddings [⟨['a'], 0⟩] 2 5 =
      ([Step.loadDocuments], Except.error RagError.invalidConfiguration) :=
  convert_invalid_config_rejected_after_load [⟨['a'], 0⟩] 2 5 (by decide)

/-- C6 counterexample: with the page text `"a\tb"` and a valid
configuration, the chunk the splitter produces inside
`convert_pdf_to_embeddings` still contains the tab — chunking runs on the
raw page text, not on normalized text — and only the later cleaning step
makes the stored chunk tab-free.  This refutes the claim that every chunk
is produced from already-normalized (tab-free) page text. -/
theorem convert_chunks_raw_text_cex :
    (∃ d ∈ split_documents 10 2 [⟨['a','\t','b'], 0⟩], '\t' ∈ d.page_content) ∧
    (convert_pdf_to_embeddings [⟨['a','\t','b'], 0⟩] 10 2).2 =
      Except.ok [⟨['a',' ','b'], 0⟩] := by
  decide

/-- C6 (amended): `convert_pdf_to_embeddings` chunks the raw page text
first and then normalizes each chunk; every chunk is tab-free by the time
it is embedded and inserted into the fresh vector store. -/
theorem convert_normalizes_after_chunking (pages : List Document)
    (size overlap : Nat) (h : overlap < size) :
    (convert_pdf_to_embeddings pages size overlap).2 =
      Except.ok (replace_tab_with_space (split_documents size overlap pages)) ∧
    ∀ d ∈ replace_tab_with_space (split_documents size overlap pages),
      '\t' ∉ d.page_content := by
  constructor
  · rw [convert_valid_eq pages size overlap h]
  · exact tab_not_mem_clean (split_documents size overlap pages)

theorem convert_normalizes_after_chunking_witness :
    (convert_pdf_to_embeddings [⟨['a','\t','b'], 0⟩] 10 2).2 =
      Except.ok (replace_tab_with_space (split_documents 10 2 [⟨['a','\t','b'], 0⟩])) ∧
    ∀ d ∈ replace_tab_with_space (split_documents 10 2 [⟨['a','\t','b'], 0⟩]),
      '\t' ∉ d.page_content :=
  convert_normalizes_after_chunking [⟨['a','\t','b'], 0⟩] 10 2 (by decide)

/-- C7: normalization always succeeds, is a pure function of its input,
preserves the character count, and rewrites exactly the horizontal tabs —
position by position the output is the input with each tab replaced by a
single space and every other character unchanged — so no tab survives. -/
theorem normalizeText_spec (s : List Char) :
    (normalizeText s).length = s.length ∧
    (∀ i : Nat, (normalizeText s)[i]? =
        (s[i]?).map (fun c => if c = '\t' then ' ' else c)) ∧
    '\t' ∉ normalizeText s :=
  ⟨replaceChar_length '\t' ' ' s,
   replaceChar_getElem '\t' ' ' s,
   not_mem_replaceChar '\t' ' ' (by decide) s⟩

/-- C10: `replace_tab_with_space` keeps the document list's length and
order, changing only each document's `page_content` to its tab-cleaned
form; since the Python loop mutates the received list in place and
returns it, the `texts` list that `convert_pdf_to_embeddings` hands to
the vector store is exactly `cleaned_texts`, so every stored chunk is
tab-free even though `cleaned_texts` is never passed explicitly. -/
theorem replace_tab_in_place_and_store (docs pages : List Document)
    (size overlap : Nat) (h : overlap < size) :
    (replace_tab_with_space docs).length = docs.length ∧
    (∀ i : Nat, (replace_tab_with_space docs)[i]? =
        (docs[i]?).map (fun d => { d with page_content := normalizeText d.page_content })) ∧
    (convert_pdf_to_embeddings pages size overlap).2 =
      Except.ok (replace_tab_with_space (split_documents size overlap pages)) ∧
    ∀ d ∈ replace_tab_with_space (split_documents size overlap pages),
      '\t' ∉ d.page_content := by
  refine ⟨?_, ?_, ?_, tab_not_mem_clean (split_documents size overlap pages)⟩
  · exact List.length_map docs _
  · intro i
    unfold replace_tab_with_space
    rw [List.getElem?_map]
  · rw [convert_valid_eq pages size overlap h]

theorem replace_tab_in_place_and_store_witness :
    (replace_tab_with_space [⟨['a','\t'], 0⟩]).length = ([⟨['a','\t'], 0⟩] : List Document).length ∧
    (∀ i : Nat, (replace_tab_with_space [⟨['a','\t'], 0⟩])[i]? =
        (([⟨['a','\t'], 0⟩] : List Document)[i]?).map
          (fun d => { d with page_content := normalizeText d.page_content })) ∧
    (convert_pdf_to_embeddings [⟨['a','\t','b'], 0⟩] 10 2).2 =
      Except.ok (replace_tab_with_space (split_documents 10 2 [⟨['a','\t','b'], 0⟩])) ∧
    ∀ d ∈ replace_tab_with_space (split_documents 10 2 [⟨['a','\t','b'], 0⟩]),
      '\t' ∉ d.page_content :=
  replace_tab_in_place_and_store [⟨['a','\t'], 0⟩] [⟨['a','\t','b'], 0⟩] 10 2 (by decide)
